import Mathlib

/-!
The marcidus store: identifier codec, row store, index store and sequence store.

A shallow embedding of `encoding.go`, `row_store.go`, `index_store.go` and
`sequence.go`.

Conventions of the embedding:

* a byte is a `Nat` below 256 and a `[]byte` is a `List Nat`;
* `uint64` values are `Nat`, and every operation that can leave the range is
  followed by `% 2 ^ 64`; `byte(x)` is `x % 256`;
* `int64` values are `Int`, wrapped by `toInt64` after a conversion or a product;
* a function of the source that returns `(value, error)` returns
  `Except Error value`; a Go run-time panic is the error `Error.goPanic`;
* methods with a pointer receiver return the new receiver next to the result;
* the locks of the source are not represented: a call runs to its end before the next,
  except for two callers of `Append`, whose steps `appenders.run` takes in any order;
* the calls on the file go through, except in `rowStore.repairWith` and
  `newRowStoreWith`, which take the failures of the file system as an argument.
-/

namespace Marcidus

/-! ## encoding.go -/

/-- The inner loop of `encodeEntryId`:
`for i := bytecount - 1; i > 0; i-- { blob[i] = byte(b&0xff); b >>= 8 }`.
The first argument is the loop variable `i`; the result is the final `blob` and `b`. -/
def encodeFill : Nat → List Nat → Nat → List Nat × Nat
  | 0, blob, b => (blob, b)
  | i + 1, blob, b => encodeFill i (blob.set (i + 1) ((b &&& 0xff) % 256)) (b >>> 8)

/-- The body run by `encodeEntryId` once `entryId < limit` holds:
`blob = make([]byte, bytecount)`, the fill loop, and
`blob[0] = byte(b) | (byte(bytecount)<<5)`, the shift being taken in `byte`. -/
def encodeBlob (entryId bytecount : Nat) : List Nat :=
  let r := encodeFill (bytecount - 1) (List.replicate bytecount 0) entryId
  r.1.set 0 ((r.2 % 256) ||| (((bytecount % 256) <<< 5) % 256))

/-- The outer loop of `encodeEntryId`:
`for bytecount := 1; bytecount <= 8; bytecount++ { if entryId < limit { ...; break }; limit <<= 8 }`.
The first argument counts the iterations that are left (`9 - bytecount`); when none is
left the loop ends with `blob` still `nil`. -/
def encodeLoop (entryId : Nat) : Nat → Nat → Nat → List Nat
  | 0, _, _ => []
  | n + 1, bytecount, limit =>
    if entryId < limit then encodeBlob entryId bytecount
    else encodeLoop entryId n (bytecount + 1) ((limit <<< 8) % 2 ^ 64)

/-- Source function `encodeEntryId(entryId uint64) []byte`. -/
def encodeEntryId (entryId : Nat) : List Nat :=
  encodeLoop entryId 8 1 32

/-- The loop of `decodeEntryId`:
`for i := 1; i < bytecount; i++ { entryId = (entryId<<8) | uint64(blob[i]) }`.
The first argument counts the iterations that are left (`bytecount - i`); indexing
past the end of `blob` panics. -/
def decodeLoop (blob : List Nat) : Nat → Nat → Nat → Option Nat
  | 0, _, entryId => some entryId
  | n + 1, i, entryId =>
    match blob[i]? with
    | none => none
    | some x => decodeLoop blob n (i + 1) (((entryId <<< 8) % 2 ^ 64) ||| x)

/-- Source function `decodeEntryId(blob []byte) (uint64, []byte)`. The result is `none`
where the source panics: `blob[0]` on an empty blob, `blob[i]` past the end, and
`blob[bytecount:]` with `bytecount > len(blob)`. -/
def decodeEntryId (blob : List Nat) : Option (Nat × List Nat) :=
  match blob[0]? with
  | none => none
  | some b0 =>
    let bytecount := b0 >>> 5
    match decodeLoop blob (bytecount - 1) 1 (b0 &&& 0x1f) with
    | none => none
    | some entryId =>
      if bytecount ≤ blob.length then some (entryId, blob.drop bytecount) else none

/-! ## The file behind a row store (package `os`) -/

/-- Errors and panics of the model. -/
inductive Error where
  /-- Variable `errClosed` of `row_store.go`. -/
  | errClosed
  /-- Variable `errOutOfBounds` of `row_store.go`. -/
  | errOutOfBounds
  /-- Variable `errNotSupported` of `row_store.go`. -/
  | errNotSupported
  /-- The `fmt.Errorf("appending unexpected item: want size=%d, have size=%d", ...)` of `Append`. -/
  | errSizeMismatch (want : Int) (have_ : Nat)
  /-- Variable `errNotInitialized` of `index_store.go`. -/
  | errNotInitialized
  /-- Variable `errUnknownEntry` of `index_store.go`. -/
  | errUnknownEntry
  /-- Variable `errDuplicate` of `sequence.go`. -/
  | errDuplicate
  /-- The `os.ErrInvalid` that every method of a nil `*os.File` returns. -/
  | errInvalid
  /-- The `io.EOF` of a `ReadAt` that finds fewer bytes than the buffer holds. -/
  | errEOF
  /-- The error of `ReadAt` with a negative offset. -/
  | errNegativeOffset
  /-- The `EINVAL` of `Truncate` with a negative size. -/
  | errTruncateArg
  /-- A failure of the file system under a call (`EIO`, `EPERM`, `ENOSPC`, ...). -/
  | errInputOutput
  /-- A run-time panic (`make` with a negative length, integer division by zero). -/
  | goPanic
  deriving DecidableEq, Repr

deriving instance DecidableEq for Except

/-- The conversion to `int64` and the wrap-around of `int64` arithmetic. -/
def toInt64 (x : Int) : Int :=
  (x + 2 ^ 63) % 2 ^ 64 - 2 ^ 63

/-- Method `(*os.File).ReadAt(b, off)` for a buffer of `len` bytes, on a file handle that
is nil (`none`) or open on the given content: the bytes read, or the error. -/
def fileReadAt (file : Option (List Nat)) (len : Nat) (off : Int) : Except Error (List Nat) :=
  match file with
  | none => .error .errInvalid
  | some content =>
    if off < 0 then .error .errNegativeOffset
    else if len = 0 then .ok []
    else if off.toNat + len ≤ content.length then .ok ((content.drop off.toNat).take len)
    else .error .errEOF

/-- Method `(*os.File).Write(b)` on a file opened with `O_APPEND`: the new content. -/
def fileWrite (file : Option (List Nat)) (b : List Nat) : Except Error (List Nat) :=
  match file with
  | none => .error .errInvalid
  | some content => .ok (content ++ b)

/-- Method `(*os.File).Truncate(size)`: the new content, cut or filled with zero bytes. -/
def fileTruncate (file : Option (List Nat)) (size : Int) : Except Error (List Nat) :=
  match file with
  | none => .error .errInvalid
  | some content =>
    if size < 0 then .error .errTruncateArg
    else .ok (content.take size.toNat ++ List.replicate (size.toNat - content.length) 0)

/-- The size reported by `(*os.File).Stat()`. -/
def fileSize (file : Option (List Nat)) : Except Error Int :=
  match file with
  | none => .error .errInvalid
  | some content => .ok content.length

/-! ## row_store.go -/

/-- Source type `rowStore`: the stride (`int64`), the file handle (`none` once `Close`
has set it to nil, else the content of the open file) and the entry count (`uint64`). -/
structure rowStore where
  entryStride : Int
  file : Option (List Nat)
  entryCount : Nat
  deriving DecidableEq, Repr

/-- The read loop of `rowStore.truncate`:
`for i := 0; i < len(removedBlobs); i++ { removedBlobs[i] = make([]byte, t.entryStride);
if _, err := t.file.ReadAt(removedBlobs[i], t.entryStride); err != nil { return nil, err } }`.
The first argument counts the iterations that are left, the second holds the blobs read
so far. Every iteration reads at the offset `t.entryStride`. -/
def rowStore.truncateLoop (t : rowStore) : Nat → List (List Nat) → Except Error (List (List Nat))
  | 0, removedBlobs => .ok removedBlobs
  | n + 1, removedBlobs =>
    if t.entryStride < 0 then .error .goPanic
    else
      match fileReadAt t.file t.entryStride.toNat t.entryStride with
      | .error e => .error e
      | .ok blob => rowStore.truncateLoop t n (removedBlobs ++ [blob])

/-- Source method `(t *rowStore) truncate(newEntryCount uint64) ([][]byte, error)`. -/
def rowStore.truncate (t : rowStore) (newEntryCount : Nat) :
    Except Error (List (List Nat)) × rowStore :=
  let oldEntryCount := t.entryCount
  if oldEntryCount ≤ newEntryCount then (.ok [], t)
  else
    match t.truncateLoop (oldEntryCount - newEntryCount) [] with
    | .error e => (.error e, t)
    | .ok removedBlobs =>
      match fileTruncate t.file (toInt64 (toInt64 newEntryCount * t.entryStride)) with
      | .error e => (.error e, t)
      | .ok content =>
        (.ok removedBlobs, { t with file := some content, entryCount := newEntryCount })

/-- Source method `(t *rowStore) Close() error`; closing the file does not fail in the model. -/
def rowStore.Close (t : rowStore) : Except Error Unit × rowStore :=
  match t.file with
  | none => (.error .errInvalid, t)
  | some _ => (.ok (), { t with file := none })

/-- Source method `(t *rowStore) Append(blob []byte) (uint64, error)`. -/
def rowStore.Append (t : rowStore) (blob : List Nat) : Except Error Nat × rowStore :=
  if (blob.length : Int) ≠ t.entryStride then
    (.error (.errSizeMismatch t.entryStride blob.length), t)
  else if t.file = none then (.error .errClosed, t)
  else
    match fileWrite t.file blob with
    | .error e => (.error e, t)
    | .ok content =>
      let newCount := (t.entryCount + 1) % 2 ^ 64
      (.ok ((newCount + 2 ^ 64 - 1) % 2 ^ 64), { t with file := some content, entryCount := newCount })

/-- Source method `(t *rowStore) Retrieve(entryId uint64) ([]byte, error)`. -/
def rowStore.Retrieve (t : rowStore) (entryId : Nat) : Except Error (List Nat) :=
  if t.file = none then .error .errClosed
  else if t.entryCount ≤ entryId then .error .errOutOfBounds
  else if t.entryStride < 0 then .error .goPanic
  else fileReadAt t.file t.entryStride.toNat (toInt64 (toInt64 entryId * t.entryStride))

/-- Source method `(t *rowStore) Has(entryId uint64) bool`. -/
def rowStore.Has (t : rowStore) (entryId : Nat) : Bool :=
  decide (t.entryCount > entryId)

/-- Source method `(t *rowStore) EntryCount() uint64`. -/
def rowStore.EntryCount (t : rowStore) : Nat :=
  t.entryCount

/-- Source method `(t *rowStore) Size() (uint64, error)`. -/
def rowStore.Size (t : rowStore) : Except Error Nat :=
  match fileSize t.file with
  | .error e => .error e
  | .ok size => .ok (size % 2 ^ 64).toNat

/-- Source method `(t *rowStore) Sync() error`; a flush does not change the content. -/
def rowStore.Sync (t : rowStore) : Except Error Unit :=
  match t.file with
  | none => .error .errInvalid
  | some _ => .ok ()

/-- The failures of the file system during `newRowStore`: for each call on the file, the
error it returns, or `none` when the call goes through. -/
structure Faults where
  openFile : Option Error
  statFirst : Option Error
  truncate : Option Error
  sync : Option Error
  statSecond : Option Error
  deriving DecidableEq, Repr

/-- No failure of the file system. -/
def noFaults : Faults :=
  ⟨none, none, none, none, none⟩

/-- The result of a call on the file under a possible failure of the file system: a nil
handle is refused before the file system is asked. -/
def faulty {α : Type} (fault : Option Error) (r : Except Error α) : Except Error α :=
  match r with
  | .error e => .error e
  | .ok v =>
    match fault with
    | some e => .error e
    | none => .ok v

/-- The block of `repair` run when the size is not a multiple of the stride:
`t.file.Truncate(stat.Size() - overflow); if err := t.file.Sync(); err != nil { return err }`.
The result of `Truncate` is dropped by the source; a failed `Truncate` leaves the file
as it is. -/
def rowStore.repairCut (faults : Faults) (t : rowStore) (size overflow : Int) :
    Except Error Unit × rowStore :=
  let t1 : rowStore :=
    match faulty faults.truncate (fileTruncate t.file (toInt64 (size - overflow))) with
    | .error _ => t
    | .ok content => { t with file := some content }
  match faulty faults.sync t1.Sync with
  | .error e => (.error e, t1)
  | .ok _ => (.ok (), t1)

/-- Source method `(t *rowStore) repair() error`, under the given failures of the file
system. The operators `%` and `/` of `int64` truncate toward zero and panic on a zero
divisor. -/
def rowStore.repairWith (faults : Faults) (t : rowStore) : Except Error Unit × rowStore :=
  match faulty faults.statFirst (fileSize t.file) with
  | .error e => (.error e, t)
  | .ok size =>
    if t.entryStride = 0 then (.error .goPanic, t)
    else
      match (if size.tmod t.entryStride ≠ 0
          then t.repairCut faults size (size.tmod t.entryStride) else (.ok (), t)) with
      | (.error e, t1) => (.error e, t1)
      | (.ok _, t1) =>
        match faulty faults.statSecond (fileSize t1.file) with
        | .error e => (.error e, t1)
        | .ok size1 =>
          (.ok (), { t1 with entryCount := ((size1.tdiv t1.entryStride) % 2 ^ 64).toNat })

/-- Source method `(t *rowStore) repair() error` when no call on the file fails. -/
def rowStore.repair (t : rowStore) : Except Error Unit × rowStore :=
  t.repairWith noFaults

/-- Source function `newRowStore(filePath string, entryStride int64) (*rowStore, error)`,
on a path that holds a file of the given content (a path without a file holds the empty
content after `O_CREATE`), under the given failures of the file system. -/
def newRowStoreWith (faults : Faults) (content : List Nat) (entryStride : Int) :
    Except Error rowStore :=
  match faults.openFile with
  | some e => .error e
  | none =>
    match rowStore.repairWith faults ⟨entryStride, some content, 0⟩ with
    | (.error e, _) => .error e
    | (.ok _, tab) => .ok tab

/-- Source function `newRowStore` when no call on the file fails. -/
def newRowStore (content : List Nat) (entryStride : Int) : Except Error rowStore :=
  newRowStoreWith noFaults content entryStride

/-- A call on an open row store, for sequences of calls. -/
inductive rowOp where
  | Append (blob : List Nat)
  | truncate (newEntryCount : Nat)
  | Retrieve (entryId : Nat)
  | Has (entryId : Nat)
  deriving DecidableEq, Repr

/-- The row store after one call, the result of the call dropped. `Retrieve` and `Has`
do not write to the receiver. -/
def rowStore.step (t : rowStore) : rowOp → rowStore
  | .Append blob => (t.Append blob).2
  | .truncate newEntryCount => (t.truncate newEntryCount).2
  | .Retrieve _ => t
  | .Has _ => t

/-- The row store after a sequence of calls. -/
def rowStore.run (t : rowStore) : List rowOp → rowStore
  | [] => t
  | op :: ops => rowStore.run (t.step op) ops

/-- The file-size invariant of an open row store: the file is open, holds `entryCount`
records of `stride` bytes, and has at most `bound` bytes. -/
def rowStore.sized (t : rowStore) (stride bound : Nat) : Prop :=
  ∃ content, t.file = some content ∧ t.entryStride = stride ∧
    content.length = t.entryCount * stride ∧ content.length ≤ bound

/-! ## index_store.go -/

/-- Modelled from the spec: the bucket of the external key-value engine (`bolt`), which is
not part of this repository. It is a finite map from keys to values with `get`, `put`
and `delete`; limits of the engine on key and value sizes are not represented. -/
abbrev Bucket := List (List Nat × List Nat)

/-- Modelled from the spec: `Bucket.Get(key)`, `none` standing for the nil result of an
absent key. -/
def Bucket.get (b : Bucket) (key : List Nat) : Option (List Nat) :=
  (b.find? (fun kv => decide (kv.1 = key))).map (fun kv => kv.2)

/-- Modelled from the spec: `Bucket.Delete(key)`; deleting an absent key changes nothing. -/
def Bucket.delete (b : Bucket) (key : List Nat) : Bucket :=
  b.filter (fun kv => decide (kv.1 ≠ key))

/-- Modelled from the spec: `Bucket.Put(key, value)`, overwriting a prior value. -/
def Bucket.put (b : Bucket) (key value : List Nat) : Bucket :=
  (key, value) :: Bucket.delete b key

/-- Source type `indexStore`: the database holds the bucket `idxBucketName`, or does not
hold it yet (`none`). -/
structure indexStore where
  db : Option Bucket
  deriving DecidableEq, Repr

/-- Source method `(t *indexStore) Retrieve(key []byte) (entryId uint64, err error)`.
The result of `decodeEntryId` is unwrapped: where it panics, so does `Retrieve`. -/
def indexStore.Retrieve (t : indexStore) (key : List Nat) : Except Error Nat :=
  match t.db with
  | none => .error .errNotInitialized
  | some b =>
    match Bucket.get b key with
    | none => .error .errUnknownEntry
    | some val =>
      if val.length = 0 then .error .errUnknownEntry
      else
        match decodeEntryId val with
        | none => .error .goPanic
        | some r => .ok r.1

/-- Source method `(t *indexStore) Has(key []byte) (has bool, err error)`. -/
def indexStore.Has (t : indexStore) (key : List Nat) : Except Error Bool :=
  match t.db with
  | none => .ok false
  | some b => .ok (Bucket.get b key).isSome

/-- Source method `(t *indexStore) Put(key []byte, entryId uint64) error`. -/
def indexStore.Put (t : indexStore) (key : List Nat) (entryId : Nat) :
    Except Error Unit × indexStore :=
  let b := t.db.getD []
  (.ok (), { db := some (Bucket.put b key (encodeEntryId entryId)) })

/-- The loop of `DeleteAll`: `for _, key := range keys { b.Delete(key) }`. -/
def Bucket.deleteKeys (b : Bucket) : List (List Nat) → Bucket
  | [] => b
  | key :: keys => Bucket.deleteKeys (Bucket.delete b key) keys

/-- Source method `(t *indexStore) DeleteAll(keys [][]byte) error`. -/
def indexStore.DeleteAll (t : indexStore) (keys : List (List Nat)) :
    Except Error Unit × indexStore :=
  let b := t.db.getD []
  (.ok (), { db := some (Bucket.deleteKeys b keys) })

/-! ## sequence.go -/

/-- Source type `Store`, reduced to the two stores it owns. -/
structure Store where
  rowStore : Marcidus.rowStore
  indexStore : Marcidus.indexStore
  deriving DecidableEq, Repr

/-- Source method `(seq *Store) HasID(entryId uint64) bool`. -/
def Store.HasID (seq : Store) (entryId : Nat) : Bool :=
  seq.rowStore.Has entryId

/-- Source method `(seq *Store) HasEntry(entryBlob []byte) (bool, error)`. -/
def Store.HasEntry (seq : Store) (entryBlob : List Nat) : Except Error Bool :=
  seq.indexStore.Has entryBlob

/-- Source method `(seq *Store) GetEntry(entryId uint64) ([]byte, error)`. -/
def Store.GetEntry (seq : Store) (entryId : Nat) : Except Error (List Nat) :=
  seq.rowStore.Retrieve entryId

/-- Source method `(seq *Store) GetID(entryBlob []byte) (uint64, error)`. -/
def Store.GetID (seq : Store) (entryBlob : List Nat) : Except Error Nat :=
  seq.indexStore.Retrieve entryBlob

/-- Source method `(seq *Store) Count() (uint64, error)`. -/
def Store.Count (seq : Store) : Except Error Nat :=
  .ok seq.rowStore.EntryCount

/-- Source method `(seq *Store) TryInsert(entry []byte) (bool, error)`. -/
def Store.TryInsert (seq : Store) (entry : List Nat) : Except Error Bool × Store :=
  match seq.indexStore.Has entry with
  | .error e => (.error e, seq)
  | .ok true => (.ok false, seq)
  | .ok false =>
    match seq.rowStore.Append entry with
    | (.error e, rows) => (.error e, { seq with rowStore := rows })
    | (.ok assignedEntryId, rows) =>
      match seq.indexStore.Put entry assignedEntryId with
      | (.error e, index) => (.error e, { rowStore := rows, indexStore := index })
      | (.ok _, index) => (.ok true, { rowStore := rows, indexStore := index })

/-- Source method `(seq *Store) Insert(entry []byte) error`. -/
def Store.Insert (seq : Store) (entry : List Nat) : Except Error Unit × Store :=
  match seq.TryInsert entry with
  | (.ok false, seq1) => (.error .errDuplicate, seq1)
  | (.ok true, seq1) => (.ok (), seq1)
  | (.error e, seq1) => (.error e, seq1)

/-- Source method `(seq *Store) Truncate(newEntryCount uint64) error`. -/
def Store.Truncate (seq : Store) (newEntryCount : Nat) : Except Error Unit × Store :=
  match seq.rowStore.truncate newEntryCount with
  | (.error e, rows) => (.error e, { seq with rowStore := rows })
  | (.ok removedEntries, rows) =>
    match seq.indexStore.DeleteAll removedEntries with
    | (r, index) => (r, { rowStore := rows, indexStore := index })

/-- The store right after `Open` on an empty directory: an empty row file, no bucket. -/
def Store.empty (stride : Int) : Store :=
  { rowStore := { entryStride := stride, file := some [], entryCount := 0 },
    indexStore := { db := none } }

/-- The state after a sequence of `Insert` calls, results dropped. -/
def Store.insertAll (seq : Store) : List (List Nat) → Store
  | [] => seq
  | entry :: entries => Store.insertAll (seq.Insert entry).2 entries

/-- The state after a sequence of `Append` calls, results dropped. -/
def rowStore.appendAll (t : rowStore) : List (List Nat) → rowStore
  | [] => t
  | blob :: blobs => rowStore.appendAll (t.Append blob).2 blobs

/-- The row store right after `newRowStore` on a file that does not exist yet. -/
def rowStore.empty (stride : Int) : rowStore :=
  { entryStride := stride, file := some [], entryCount := 0 }

/-- A store opened on a row file of `count` records of `stride` zero bytes, next to an
index file that does not exist yet. -/
def Store.onZeroRows (stride count : Nat) : Store :=
  { rowStore :=
      { entryStride := stride, file := some (List.replicate (count * stride) 0),
        entryCount := count },
    indexStore := { db := none } }

/-! ## Two concurrent `Append` calls -/

/-- The first statements of `Append`, up to and with `t.file.Write(blob)`: the check of
the blob length, the check of the handle and the write. The result is the byte offset at
which the blob lands, the end of the file opened with `O_APPEND`. -/
def rowStore.appendWrite (t : rowStore) (blob : List Nat) : Except Error Nat × rowStore :=
  if (blob.length : Int) ≠ t.entryStride then
    (.error (.errSizeMismatch t.entryStride blob.length), t)
  else if t.file = none then (.error .errClosed, t)
  else
    match fileWrite t.file blob with
    | .error e => (.error e, t)
    | .ok content => (.ok (content.length - blob.length), { t with file := some content })

/-- The last statement of `Append`: `return atomic.AddUint64(&t.entryCount, 1) - 1, nil`.
The result is the id returned. -/
def rowStore.appendCount (t : rowStore) : Nat × rowStore :=
  ((((t.entryCount + 1) % 2 ^ 64) + 2 ^ 64 - 1) % 2 ^ 64,
    { t with entryCount := (t.entryCount + 1) % 2 ^ 64 })

/-- Two callers A and B inside `Append` on one row store, both under the read side of
`fileLock`, which any number of callers may hold together: the store, and for each
caller the offset at which its blob landed (once it has written) and the id it was
returned (once it has counted). -/
structure appenders where
  store : rowStore
  offsetA : Option Nat
  idA : Option Nat
  offsetB : Option Nat
  idB : Option Nat
  deriving DecidableEq, Repr

/-- The atomic steps of two callers of `Append`: the write and the counter increment of
each. -/
inductive appendStep where
  | writeA
  | countA
  | writeB
  | countB
  deriving DecidableEq, Repr

/-- One step of one of the two callers. A caller writes once, and counts once after its
write has succeeded; a step that its caller cannot take changes nothing. -/
def appenders.step (blobA blobB : List Nat) (s : appenders) : appendStep → appenders
  | .writeA =>
    match s.offsetA with
    | some _ => s
    | none =>
      match s.store.appendWrite blobA with
      | (.error _, t) => { s with store := t }
      | (.ok offset, t) => { s with store := t, offsetA := some offset }
  | .countA =>
    match s.offsetA, s.idA with
    | some _, none => { s with store := s.store.appendCount.2, idA := some s.store.appendCount.1 }
    | _, _ => s
  | .writeB =>
    match s.offsetB with
    | some _ => s
    | none =>
      match s.store.appendWrite blobB with
      | (.error _, t) => { s with store := t }
      | (.ok offset, t) => { s with store := t, offsetB := some offset }
  | .countB =>
    match s.offsetB, s.idB with
    | some _, none => { s with store := s.store.appendCount.2, idB := some s.store.appendCount.1 }
    | _, _ => s

/-- The two callers after a schedule, a sequence of their steps. -/
def appenders.run (blobA blobB : List Nat) (s : appenders) : List appendStep → appenders
  | [] => s
  | st :: schedule => appenders.run blobA blobB (s.step blobA blobB st) schedule

/-- Two callers that enter `Append` on the store `t`. -/
def appenders.start (t : rowStore) : appenders :=
  ⟨t, none, none, none, none⟩

/-! ## Bit arithmetic of the codec -/

theorem land_ff_eq_mod (x : Nat) : x &&& 0xff = x % 256 :=
  Nat.and_pow_two_sub_one_eq_mod x 8

theorem land_1f_eq_mod (x : Nat) : x &&& 0x1f = x % 32 :=
  Nat.and_pow_two_sub_one_eq_mod x 5

theorem shr8_eq_div (x : Nat) : x >>> 8 = x / 256 :=
  Nat.shiftRight_eq_div_pow x 8

theorem shr5_eq_div (x : Nat) : x >>> 5 = x / 32 :=
  Nat.shiftRight_eq_div_pow x 5

theorem shl8_eq_mul (x : Nat) : x <<< 8 = x * 256 :=
  Nat.shiftLeft_eq x 8

/-- One step of the decoder: `(entryId<<8) | uint64(blob[i])` in `uint64`. -/
theorem decode_step (e x : Nat) :
    ((e <<< 8) % 2 ^ 64) ||| (x % 256) = (e % 2 ^ 56) * 256 + x % 256 := by
  have hx : x % 256 < 2 ^ 8 := by omega
  have h := Nat.mul_add_lt_is_or hx (e % 2 ^ 56)
  have h1 : (e <<< 8) % 2 ^ 64 = 2 ^ 8 * (e % 2 ^ 56) := by
    rw [shl8_eq_mul]; omega
  rw [h1, ← h]; omega

/-- The decoder step with the modulus written out. -/
theorem decode_step_lit (e x : Nat) :
    ((e <<< 8) % 18446744073709551616) ||| (x % 256) = (e % 72057594037927936) * 256 + x % 256 := by
  have h := decode_step e x
  norm_num at h
  exact h

/-- The leading byte: `byte(b) | c` when `b` fits five bits and `c` has none of them. -/
theorem lead_byte (b c : Nat) (hb : b < 32) (hc : c % 32 = 0) :
    (b % 256) ||| c = c + b := by
  have hx : b < 2 ^ 5 := by omega
  obtain ⟨q, rfl⟩ : ∃ q, c = 2 ^ 5 * q := ⟨c / 32, by omega⟩
  have h := Nat.mul_add_lt_is_or hx q
  have h2 : b % 256 = b := by omega
  rw [h2, Nat.lor_comm, ← h]

/-- The encoder on an id that needs `k` bytes: the loop stops at `bytecount = k`. -/
theorem encodeEntryId_eq_blob (id k : Nat) (hk1 : 1 ≤ k) (hk8 : k ≤ 8)
    (hlt : id < 32 * 256 ^ (k - 1)) (hge : ∀ j, 1 ≤ j → j < k → ¬ id < 32 * 256 ^ (j - 1)) :
    encodeEntryId id = encodeBlob id k := by
  have h1 := hge 1
  have h2 := hge 2
  have h3 := hge 3
  have h4 := hge 4
  have h5 := hge 5
  have h6 := hge 6
  have h7 := hge 7
  simp only [encodeEntryId, encodeLoop, shl8_eq_mul]
  norm_num at h1 h2 h3 h4 h5 h6 h7 ⊢
  interval_cases k <;> norm_num at hlt h1 h2 h3 h4 h5 h6 h7 ⊢ <;>
    (intros; split_ifs <;> first | rfl | omega)

theorem encodeFill_length (i : Nat) : ∀ (blob : List Nat) (b : Nat),
    (encodeFill i blob b).1.length = blob.length := by
  induction i with
  | zero => intro blob b; rfl
  | succ i ih => intro blob b; simp [encodeFill, ih]

theorem encodeBlob_length (id k : Nat) : (encodeBlob id k).length = k := by
  simp [encodeBlob, encodeFill_length]

/-- Decoding what the encoder writes for a byte count of at most seven gives the id back
and leaves the bytes that follow. -/
theorem decode_encodeBlob (id k : Nat) (s : List Nat) (hk1 : 1 ≤ k) (hk7 : k ≤ 7)
    (hlt : id < 32 * 256 ^ (k - 1)) :
    decodeEntryId (encodeBlob id k ++ s) = some (id, s) := by
  interval_cases k
  · norm_num at hlt
    have hb := lead_byte (id) 32 (by omega) (by norm_num)
    have hq : (32 + id) / 32 = 1 := by omega
    have hr : (32 + id) % 32 = id := by omega
    simp [encodeBlob, encodeFill, decodeEntryId, decodeLoop, land_ff_eq_mod, shr8_eq_div,
      Nat.div_div_eq_div_mul, hb, shr5_eq_div, land_1f_eq_mod, hq, hr, decode_step_lit]
    try omega
  · norm_num at hlt
    have hb := lead_byte (id / 256) 64 (by omega) (by norm_num)
    have hq : (64 + id / 256) / 32 = 2 := by omega
    have hr : (64 + id / 256) % 32 = id / 256 := by omega
    simp [encodeBlob, encodeFill, decodeEntryId, decodeLoop, land_ff_eq_mod, shr8_eq_div,
      Nat.div_div_eq_div_mul, hb, shr5_eq_div, land_1f_eq_mod, hq, hr, decode_step_lit]
    try omega
  · norm_num at hlt
    have hb := lead_byte (id / 65536) 96 (by omega) (by norm_num)
    have hq : (96 + id / 65536) / 32 = 3 := by omega
    have hr : (96 + id / 65536) % 32 = id / 65536 := by omega
    simp [encodeBlob, encodeFill, decodeEntryId, decodeLoop, land_ff_eq_mod, shr8_eq_div,
      Nat.div_div_eq_div_mul, hb, shr5_eq_div, land_1f_eq_mod, hq, hr, decode_step_lit]
    try omega
  · norm_num at hlt
    have hb := lead_byte (id / 16777216) 128 (by omega) (by norm_num)
    have hq : (128 + id / 16777216) / 32 = 4 := by omega
    have hr : (128 + id / 16777216) % 32 = id / 16777216 := by omega
    simp [encodeBlob, encodeFill, decodeEntryId, decodeLoop, land_ff_eq_mod, shr8_eq_div,
      Nat.div_div_eq_div_mul, hb, shr5_eq_div, land_1f_eq_mod, hq, hr, decode_step_lit]
    try omega
  · norm_num at hlt
    have hb := lead_byte (id / 4294967296) 160 (by omega) (by norm_num)
    have hq : (160 + id / 4294967296) / 32 = 5 := by omega
    have hr : (160 + id / 4294967296) % 32 = id / 4294967296 := by omega
    simp [encodeBlob, encodeFill, decodeEntryId, decodeLoop, land_ff_eq_mod, shr8_eq_div,
      Nat.div_div_eq_div_mul, hb, shr5_eq_div, land_1f_eq_mod, hq, hr, decode_step_lit]
    try omega
  · norm_num at hlt
    have hb := lead_byte (id / 1099511627776) 192 (by omega) (by norm_num)
    have hq : (192 + id / 1099511627776) / 32 = 6 := by omega
    have hr : (192 + id / 1099511627776) % 32 = id / 1099511627776 := by omega
    simp [encodeBlob, encodeFill, decodeEntryId, decodeLoop, land_ff_eq_mod, shr8_eq_div,
      Nat.div_div_eq_div_mul, hb, shr5_eq_div, land_1f_eq_mod, hq, hr, decode_step_lit]
    try omega
  · norm_num at hlt
    have hb := lead_byte (id / 281474976710656) 224 (by omega) (by norm_num)
    have hq : (224 + id / 281474976710656) / 32 = 7 := by omega
    have hr : (224 + id / 281474976710656) % 32 = id / 281474976710656 := by omega
    simp [encodeBlob, encodeFill, decodeEntryId, decodeLoop, land_ff_eq_mod, shr8_eq_div,
      Nat.div_div_eq_div_mul, hb, shr5_eq_div, land_1f_eq_mod, hq, hr, decode_step_lit]
    try omega

/-- Below `2 ^ 61` the encoder stops at the smallest byte count that fits, and below
`2 ^ 53` that count is at most seven. -/
theorem encodeEntryId_bytecount (id : Nat) (h : id < 2 ^ 61) :
    ∃ k, 1 ≤ k ∧ k ≤ 8 ∧ (id < 2 ^ 53 → k ≤ 7) ∧ id < 32 * 256 ^ (k - 1) ∧
      encodeEntryId id = encodeBlob id k := by
  simp only [encodeEntryId, encodeLoop, shl8_eq_mul]
  norm_num at h ⊢
  split_ifs with h1 h2 h3 h4 h5 h6 h7
  · exact ⟨1, by norm_num, by norm_num, by norm_num, by norm_num; omega, rfl⟩
  · exact ⟨2, by norm_num, by norm_num, by norm_num, by norm_num; omega, rfl⟩
  · exact ⟨3, by norm_num, by norm_num, by norm_num, by norm_num; omega, rfl⟩
  · exact ⟨4, by norm_num, by norm_num, by norm_num, by norm_num; omega, rfl⟩
  · exact ⟨5, by norm_num, by norm_num, by norm_num, by norm_num; omega, rfl⟩
  · exact ⟨6, by norm_num, by norm_num, by norm_num, by norm_num; omega, rfl⟩
  · exact ⟨7, by norm_num, by norm_num, by norm_num, by norm_num; omega, rfl⟩
  · exact ⟨8, by norm_num, by norm_num, by norm_num; omega, by norm_num; omega, rfl⟩

/-- From `2 ^ 61` on no byte count fits and the encoder returns the nil blob. -/
theorem encodeEntryId_nil (id : Nat) (h : 2 ^ 61 ≤ id) : encodeEntryId id = [] := by
  simp only [encodeEntryId, encodeLoop, shl8_eq_mul]
  norm_num at h ⊢
  split_ifs <;> first | rfl | omega

/-- Decoding after encoding on the working range, with bytes following the encoding. -/
theorem decode_encode_append (id : Nat) (s : List Nat) (h : id < 2 ^ 53) :
    decodeEntryId (encodeEntryId id ++ s) = some (id, s) := by
  obtain ⟨k, hk1, _, hk7, hlt, he⟩ := encodeEntryId_bytecount id (by omega)
  rw [he]
  exact decode_encodeBlob id k s hk1 (hk7 h) hlt

/-- Below `2 ^ 61` the encoding has between one and eight bytes. -/
theorem encodeEntryId_length (id : Nat) (h : id < 2 ^ 61) :
    1 ≤ (encodeEntryId id).length ∧ (encodeEntryId id).length ≤ 8 := by
  obtain ⟨k, hk1, hk8, _, _, he⟩ := encodeEntryId_bytecount id h
  have hl : (encodeEntryId id).length = k := by rw [he]; exact encodeBlob_length id k
  omega

theorem encodeEntryId_ne_nil (id : Nat) (h : id < 2 ^ 61) : encodeEntryId id ≠ [] := by
  intro hnil
  have hl := (encodeEntryId_length id h).1
  rw [hnil] at hl
  simp at hl

/-- The top three bits of the first byte written for a byte count of at most seven hold
that byte count. -/
theorem encodeBlob_tag (id k : Nat) (hk1 : 1 ≤ k) (hk7 : k ≤ 7)
    (hlt : id < 32 * 256 ^ (k - 1)) :
    (encodeBlob id k).head?.map (fun b0 => b0 >>> 5) = some k := by
  interval_cases k
  · norm_num at hlt
    have hb := lead_byte (id) 32 (by omega) (by norm_num)
    have hq : (32 + id) / 32 = 1 := by omega
    simp [encodeBlob, encodeFill, land_ff_eq_mod, shr8_eq_div, Nat.div_div_eq_div_mul, hb,
      shr5_eq_div, hq]
  · norm_num at hlt
    have hb := lead_byte (id / 256) 64 (by omega) (by norm_num)
    have hq : (64 + id / 256) / 32 = 2 := by omega
    simp [encodeBlob, encodeFill, land_ff_eq_mod, shr8_eq_div, Nat.div_div_eq_div_mul, hb,
      shr5_eq_div, hq]
  · norm_num at hlt
    have hb := lead_byte (id / 65536) 96 (by omega) (by norm_num)
    have hq : (96 + id / 65536) / 32 = 3 := by omega
    simp [encodeBlob, encodeFill, land_ff_eq_mod, shr8_eq_div, Nat.div_div_eq_div_mul, hb,
      shr5_eq_div, hq]
  · norm_num at hlt
    have hb := lead_byte (id / 16777216) 128 (by omega) (by norm_num)
    have hq : (128 + id / 16777216) / 32 = 4 := by omega
    simp [encodeBlob, encodeFill, land_ff_eq_mod, shr8_eq_div, Nat.div_div_eq_div_mul, hb,
      shr5_eq_div, hq]
  · norm_num at hlt
    have hb := lead_byte (id / 4294967296) 160 (by omega) (by norm_num)
    have hq : (160 + id / 4294967296) / 32 = 5 := by omega
    simp [encodeBlob, encodeFill, land_ff_eq_mod, shr8_eq_div, Nat.div_div_eq_div_mul, hb,
      shr5_eq_div, hq]
  · norm_num at hlt
    have hb := lead_byte (id / 1099511627776) 192 (by omega) (by norm_num)
    have hq : (192 + id / 1099511627776) / 32 = 6 := by omega
    simp [encodeBlob, encodeFill, land_ff_eq_mod, shr8_eq_div, Nat.div_div_eq_div_mul, hb,
      shr5_eq_div, hq]
  · norm_num at hlt
    have hb := lead_byte (id / 281474976710656) 224 (by omega) (by norm_num)
    have hq : (224 + id / 281474976710656) / 32 = 7 := by omega
    simp [encodeBlob, encodeFill, land_ff_eq_mod, shr8_eq_div, Nat.div_div_eq_div_mul, hb,
      shr5_eq_div, hq]

/-- Below `2 ^ 53` the top three bits of the first byte of the encoding hold its length. -/
theorem encodeEntryId_tag (id : Nat) (h : id < 2 ^ 53) :
    (encodeEntryId id).head?.map (fun b0 => b0 >>> 5) = some (encodeEntryId id).length := by
  obtain ⟨k, hk1, _, hk7, hlt, he⟩ := encodeEntryId_bytecount id (by omega)
  rw [he, encodeBlob_length]
  exact encodeBlob_tag id k hk1 (hk7 h) hlt

/-! ## Claims on the codec -/

/-- C1 (counterexample): the round trip fails from `2 ^ 53` on. The id `2 ^ 61` has no
encoding, so decoding the nil blob panics; the id `2 ^ 53` is encoded in eight bytes
whose leading bits are zero, and decodes to `0` with all eight bytes left over. -/
theorem C1_roundtrip_fails :
    decodeEntryId (encodeEntryId (2 ^ 61)) = none ∧
    decodeEntryId (encodeEntryId (2 ^ 53)) = some (0, [0, 32, 0, 0, 0, 0, 0, 0]) ∧
    decodeEntryId (encodeEntryId (2 ^ 53)) ≠ some (2 ^ 53, []) := by
  decide

/-- C1 (amended): for every id below `2 ^ 53`, `decodeEntryId(encodeEntryId(id))` returns
exactly `(id, empty suffix)`. -/
theorem C1_roundtrip (id : Nat) (h : id < 2 ^ 53) :
    decodeEntryId (encodeEntryId id) = some (id, []) := by
  have h1 := decode_encode_append id [] h
  simpa using h1

/-- Witness of C1: the largest id of the range, `2 ^ 53 - 1`. -/
theorem C1_roundtrip_witness :
    (2 ^ 53 - 1 < 2 ^ 53) ∧
    decodeEntryId (encodeEntryId (2 ^ 53 - 1)) = some (2 ^ 53 - 1, []) :=
  ⟨by norm_num, C1_roundtrip (2 ^ 53 - 1) (by norm_num)⟩

/-- C2 (counterexample): the id `2 ^ 61` is a `uint64` for which the encoder returns the
nil blob. -/
theorem C2_not_encodable : 2 ^ 61 < 2 ^ 64 ∧ encodeEntryId (2 ^ 61) = [] := by
  decide

/-- C2 (amended): for every id below `2 ^ 61`, `encodeEntryId(id)` is a non-empty byte
string of at most 8 bytes. -/
theorem C2_encodable (id : Nat) (h : id < 2 ^ 61) :
    encodeEntryId id ≠ [] ∧ (encodeEntryId id).length ≤ 8 :=
  ⟨encodeEntryId_ne_nil id h, (encodeEntryId_length id h).2⟩

/-- Witness of C2: the largest id of the range, `2 ^ 61 - 1`. -/
theorem C2_encodable_witness :
    (2 ^ 61 - 1 < 2 ^ 61) ∧
    (encodeEntryId (2 ^ 61 - 1) ≠ [] ∧ (encodeEntryId (2 ^ 61 - 1)).length ≤ 8) :=
  ⟨by norm_num, C2_encodable (2 ^ 61 - 1) (by norm_num)⟩

/-- C3 (the code at the failing input): the id `2 ^ 53` is encoded in eight bytes, the top
three bits of the first byte hold `0` and not `8`, and `decodeEntryId` consumes no byte:
it returns the whole encoding as the suffix. -/
theorem C3_length_tag_lost :
    (encodeEntryId (2 ^ 53)).length = 8 ∧
    (encodeEntryId (2 ^ 53)).head?.map (fun b0 => b0 >>> 5) = some 0 ∧
    decodeEntryId (encodeEntryId (2 ^ 53)) = some (0, encodeEntryId (2 ^ 53)) := by
  decide

/-- C4: for every `uint64` id and every `k` in `[1,8]`, if `k` is the smallest value in
`[1,8]` with `id < 32 * 256^(k-1)`, then `encodeEntryId(id)` has exactly `k` bytes. -/
theorem C4_minimal_length (id k : Nat) (_hid : id < 2 ^ 64) (hk1 : 1 ≤ k) (hk8 : k ≤ 8)
    (hlt : id < 32 * 256 ^ (k - 1))
    (hmin : ∀ j, 1 ≤ j → j ≤ 8 → id < 32 * 256 ^ (j - 1) → k ≤ j) :
    (encodeEntryId id).length = k := by
  have hge : ∀ j, 1 ≤ j → j < k → ¬ id < 32 * 256 ^ (j - 1) := by
    intro j hj1 hjk hj
    have := hmin j hj1 (by omega) hj
    omega
  rw [encodeEntryId_eq_blob id k hk1 hk8 hlt hge]
  exact encodeBlob_length id k

/-- Witness of C4: the id 300, whose smallest byte count is 2. -/
theorem C4_minimal_length_witness :
    (300 < 2 ^ 64) ∧ (1 ≤ 2) ∧ (2 ≤ 8) ∧ (300 < 32 * 256 ^ (2 - 1)) ∧
    (∀ j, 1 ≤ j → j ≤ 8 → 300 < 32 * 256 ^ (j - 1) → 2 ≤ j) ∧
    (encodeEntryId 300).length = 2 := by
  have hmin : ∀ j, 1 ≤ j → j ≤ 8 → 300 < 32 * 256 ^ (j - 1) → 2 ≤ j := by
    intro j hj1 hj8 hj
    by_contra hc
    have hj : j = 1 := by omega
    subst hj
    norm_num at hj
  exact ⟨by norm_num, by norm_num, by norm_num, by norm_num, hmin,
    C4_minimal_length 300 2 (by norm_num) (by norm_num) (by norm_num) (by norm_num) hmin⟩

/-! ## Claims on the row store -/

theorem toInt64_eq_self (x : Int) (h0 : 0 ≤ x) (h1 : x < 2 ^ 63) : toInt64 x = x := by
  unfold toInt64
  omega

/-- C9: for every open row store whose file size equals `entryCount*stride` and every
blob with `len(blob) = stride`, `Append(blob)` succeeds and returns the pre-append
`entryCount`, and right afterwards `Retrieve(id)` returns `blob`, `Has(id)` is true and
`Has(id+1)` is false. The file and the appended blob fit the `int64` range of file sizes,
and the stride is not zero (`newRowStore` divides by it). -/
theorem C9_append_then_read (t : rowStore) (content blob : List Nat)
    (hopen : t.file = some content)
    (hsize : (content.length : Int) = (t.entryCount : Int) * t.entryStride)
    (hstride : t.entryStride ≠ 0)
    (hlen : (blob.length : Int) = t.entryStride)
    (hfit : content.length + blob.length < 2 ^ 63) :
    (t.Append blob).1 = .ok t.entryCount ∧
    (t.Append blob).2.Retrieve t.entryCount = .ok blob ∧
    (t.Append blob).2.Has t.entryCount = true ∧
    (t.Append blob).2.Has (t.entryCount + 1) = false := by
  have hspos : 0 < t.entryStride := by omega
  have hle : (t.entryCount : Int) ≤ (t.entryCount : Int) * t.entryStride :=
    le_mul_of_one_le_right (Int.ofNat_nonneg _) (by omega)
  have hc : t.entryCount < 2 ^ 63 := by omega
  have hmod1 : (t.entryCount + 1) % 2 ^ 64 = t.entryCount + 1 := Nat.mod_eq_of_lt (by omega)
  have hmod2 : (t.entryCount + 1 + 2 ^ 64 - 1) % 2 ^ 64 = t.entryCount := by omega
  have happ : t.Append blob = (.ok t.entryCount,
      { t with file := some (content ++ blob), entryCount := t.entryCount + 1 }) := by
    unfold rowStore.Append
    rw [if_neg (by simp [hlen]), if_neg (by simp [hopen])]
    simp only [fileWrite, hopen, hmod1, hmod2]
  have hoff : toInt64 (toInt64 (t.entryCount : Int) * t.entryStride) = (content.length : Int) := by
    rw [toInt64_eq_self _ (Int.ofNat_nonneg _) (by omega), ← hsize]
    exact toInt64_eq_self _ (Int.ofNat_nonneg _) (by omega)
  have hlen0 : t.entryStride.toNat = blob.length := by omega
  have hblob : blob.length ≠ 0 := by omega
  rw [happ]
  refine ⟨rfl, ?_, ?_, ?_⟩
  · have hn1 : ¬ t.entryStride < 0 := by omega
    have hn2 : ¬ (content.length : Int) < 0 := by omega
    simp [rowStore.Retrieve, fileReadAt, hoff, hlen0, hblob, hn1, hn2]
  · simp [rowStore.Has]
  · simp [rowStore.Has]

/-- The read loop of `truncate` when the read at the offset `stride` succeeds: every
iteration adds the same blob. -/
theorem rowStore.truncateLoop_ok (t : rowStore) (blob : List Nat)
    (hstride : ¬ t.entryStride < 0)
    (hread : fileReadAt t.file t.entryStride.toNat t.entryStride = .ok blob) :
    ∀ (n : Nat) (removedBlobs : List (List Nat)),
      t.truncateLoop n removedBlobs = .ok (removedBlobs ++ List.replicate n blob) := by
  intro n
  induction n with
  | zero => intro removedBlobs; simp [rowStore.truncateLoop]
  | succ n ih =>
    intro removedBlobs
    simp only [rowStore.truncateLoop, if_neg hstride, hread, ih]
    simp [List.replicate_succ]

/-- The read loop of `truncate` when the read at the offset `stride` fails: the first
iteration returns the error. -/
theorem rowStore.truncateLoop_error (t : rowStore) (e : Error)
    (hstride : ¬ t.entryStride < 0)
    (hread : fileReadAt t.file t.entryStride.toNat t.entryStride = .error e)
    (n : Nat) (removedBlobs : List (List Nat)) :
    t.truncateLoop (n + 1) removedBlobs = .error e := by
  simp only [rowStore.truncateLoop, if_neg hstride, hread]

/-- The call `truncate(newEntryCount)` on a store of two or more records, with
`newEntryCount` below the entry count: it returns as many copies of the record with id 1
as records are removed, and cuts the file to `newEntryCount` records. -/
theorem rowStore.truncate_of_two_records (t : rowStore) (content : List Nat) (stride : Nat)
    (newEntryCount : Nat)
    (hopen : t.file = some content)
    (hstride : t.entryStride = stride) (hpos : 0 < stride)
    (hsize : content.length = t.entryCount * stride)
    (hfit : content.length < 2 ^ 63)
    (htwo : 2 ≤ t.entryCount)
    (hnew : newEntryCount < t.entryCount) :
    t.truncate newEntryCount =
      (.ok (List.replicate (t.entryCount - newEntryCount) ((content.drop stride).take stride)),
        { t with file := some (content.take (newEntryCount * stride)),
                 entryCount := newEntryCount }) := by
  have hneg : ¬ t.entryStride < 0 := by omega
  have hmul2 : 2 * stride ≤ t.entryCount * stride := Nat.mul_le_mul_right stride htwo
  have hread : fileReadAt t.file t.entryStride.toNat t.entryStride
      = .ok ((content.drop stride).take stride) := by
    have h0 : stride ≠ 0 := by omega
    have h1 : stride + stride ≤ content.length := by omega
    simp [fileReadAt, hopen, hstride, h0, h1]
  have hloop := rowStore.truncateLoop_ok t _ hneg hread (t.entryCount - newEntryCount) []
  have hlt : newEntryCount * stride < t.entryCount * stride :=
    Nat.mul_lt_mul_of_pos_right hnew hpos
  have hle1 : newEntryCount ≤ newEntryCount * stride := Nat.le_mul_of_pos_right _ hpos
  have hoff : toInt64 (toInt64 (newEntryCount : Int) * t.entryStride)
      = ((newEntryCount * stride : Nat) : Int) := by
    rw [toInt64_eq_self _ (Int.ofNat_nonneg _) (by omega), hstride]
    rw [← Int.ofNat_mul]
    exact toInt64_eq_self _ (Int.ofNat_nonneg _) (by omega)
  have hnn : ¬ ((newEntryCount * stride : Nat) : Int) < 0 := by omega
  have hpad : newEntryCount * stride - content.length = 0 := by omega
  have hcut : fileTruncate t.file (toInt64 (toInt64 (newEntryCount : Int) * t.entryStride))
      = .ok (content.take (newEntryCount * stride)) := by
    rw [hoff]
    simp only [fileTruncate, hopen, if_neg hnn, Int.toNat_ofNat, hpad]
    simp
  unfold rowStore.truncate
  simp only [if_neg (Nat.not_le.mpr hnew), hloop, hcut, List.nil_append]

/-- The call `truncate(0)` on a store of one record: the read at the offset `stride`
meets the end of the file, and `truncate` returns `io.EOF` and changes nothing. -/
theorem rowStore.truncate_of_one_record (t : rowStore) (content : List Nat) (stride : Nat)
    (hopen : t.file = some content)
    (hstride : t.entryStride = stride) (hpos : 0 < stride)
    (hsize : content.length = stride)
    (hone : t.entryCount = 1) :
    t.truncate 0 = (.error .errEOF, t) := by
  have hneg : ¬ t.entryStride < 0 := by omega
  have hread : fileReadAt t.file t.entryStride.toNat t.entryStride = .error .errEOF := by
    have h0 : stride ≠ 0 := by omega
    have h1 : ¬ stride + stride ≤ content.length := by omega
    simp [fileReadAt, hopen, hstride, h0, h1]
  have hloop := rowStore.truncateLoop_error t _ hneg hread 0 []
  unfold rowStore.truncate
  simp only [hone, Nat.sub_zero, hloop]
  simp

/-- Witness of C9: a store holding the record `[1, 2]`, appending `[3, 4]`. -/
theorem C9_append_then_read_witness :
    (rowStore.Append ⟨2, some [1, 2], 1⟩ [3, 4]).1 = .ok 1 ∧
    (rowStore.Append ⟨2, some [1, 2], 1⟩ [3, 4]).2.Retrieve 1 = .ok [3, 4] ∧
    (rowStore.Append ⟨2, some [1, 2], 1⟩ [3, 4]).2.Has 1 = true ∧
    (rowStore.Append ⟨2, some [1, 2], 1⟩ [3, 4]).2.Has (1 + 1) = false :=
  C9_append_then_read ⟨2, some [1, 2], 1⟩ [1, 2] [3, 4] rfl (by decide) (by decide)
    (by decide) (by decide)

/-- C5 (the code at the failing input): after appending ten records with ids `0..9`,
`truncate(4)` returns six copies of the record with id 1, read at the byte offset
`stride`, and not the records with ids `4..9`. -/
theorem C5_truncate_returns_record_one :
    (((rowStore.empty 2).appendAll
        [[0, 10], [1, 11], [2, 12], [3, 13], [4, 14], [5, 15], [6, 16], [7, 17], [8, 18],
          [9, 19]]).truncate 4).1
      = .ok [[1, 11], [1, 11], [1, 11], [1, 11], [1, 11], [1, 11]] ∧
    (((rowStore.empty 2).appendAll
        [[0, 10], [1, 11], [2, 12], [3, 13], [4, 14], [5, 15], [6, 16], [7, 17], [8, 18],
          [9, 19]]).truncate 4).1
      ≠ .ok [[4, 14], [5, 15], [6, 16], [7, 17], [8, 18], [9, 19]] := by
  decide

/-- C10 (the code at the failing input): on a store with the single record `[7, 8]`,
`truncate(0)` reads at the byte offset `stride`, which is the end of the file, fails
with `io.EOF` and leaves the file and the entry count as they were. -/
theorem C10_truncate_single_record_fails :
    (rowStore.truncate ⟨2, some [7, 8], 1⟩ 0).1 = .error .errEOF ∧
    (rowStore.truncate ⟨2, some [7, 8], 1⟩ 0).2 = ⟨2, some [7, 8], 1⟩ ∧
    (rowStore.truncate ⟨2, some [7, 8], 1⟩ 0).2.Has 0 = true := by
  decide

/-! ## Claims on the sequence store -/

/-- C6 (the code at the failing input): after inserting three distinct entries,
`Truncate(0)` succeeds and empties the row store, and the index still holds the entries
of ids 0 and 2: only the entry of id 1 was deleted from it. -/
theorem C6_truncate_leaves_index_entries :
    (((Store.empty 2).insertAll [[1, 2], [3, 4], [5, 6]]).Truncate 0).1 = .ok () ∧
    (((Store.empty 2).insertAll [[1, 2], [3, 4], [5, 6]]).Truncate 0).2.Count = .ok 0 ∧
    (((Store.empty 2).insertAll [[1, 2], [3, 4], [5, 6]]).Truncate 0).2.HasEntry [1, 2]
      = .ok true ∧
    (((Store.empty 2).insertAll [[1, 2], [3, 4], [5, 6]]).Truncate 0).2.HasEntry [3, 4]
      = .ok false ∧
    (((Store.empty 2).insertAll [[1, 2], [3, 4], [5, 6]]).Truncate 0).2.HasEntry [5, 6]
      = .ok true := by
  decide

/-- C7 (the code at the failing input): after inserting three distinct entries into an
empty store, `Truncate(2)` keeps the rows of ids 0 and 1 and deletes the index record of
the row of id 1, so `GetID(GetEntry(1))` fails with the unknown-entry error. -/
theorem C7_truncate_breaks_agreement :
    (((Store.empty 2).insertAll [[1, 2], [3, 4], [5, 6]]).Truncate 2).1 = .ok () ∧
    (((Store.empty 2).insertAll [[1, 2], [3, 4], [5, 6]]).Truncate 2).2.Count = .ok 2 ∧
    (((Store.empty 2).insertAll [[1, 2], [3, 4], [5, 6]]).Truncate 2).2.GetEntry 1
      = .ok [3, 4] ∧
    (((Store.empty 2).insertAll [[1, 2], [3, 4], [5, 6]]).Truncate 2).2.GetID [3, 4]
      = .error .errUnknownEntry := by
  decide

theorem Bucket.get_put (b : Bucket) (key value : List Nat) :
    Bucket.get (Bucket.put b key value) key = some value := by
  simp [Bucket.get, Bucket.put]

/-- The call `TryInsert(entry)` on an open store whose index does not hold `entry`, for an
entry of `stride` bytes: the entry is appended and indexed under the former count. -/
theorem Store.TryInsert_fresh (seq : Store) (content entry : List Nat)
    (hopen : seq.rowStore.file = some content)
    (hlen : (entry.length : Int) = seq.rowStore.entryStride)
    (hnew : seq.HasEntry entry = .ok false)
    (hcount : seq.rowStore.entryCount + 1 < 2 ^ 64) :
    seq.TryInsert entry = (.ok true,
      { rowStore := { seq.rowStore with
          file := some (content ++ entry), entryCount := seq.rowStore.entryCount + 1 },
        indexStore := { db := some (Bucket.put (seq.indexStore.db.getD []) entry
          (encodeEntryId seq.rowStore.entryCount)) } }) := by
  have hmod1 : (seq.rowStore.entryCount + 1) % 2 ^ 64 = seq.rowStore.entryCount + 1 :=
    Nat.mod_eq_of_lt hcount
  have hmod2 : (seq.rowStore.entryCount + 1 + 2 ^ 64 - 1) % 2 ^ 64
      = seq.rowStore.entryCount := by omega
  have happ : seq.rowStore.Append entry = (.ok seq.rowStore.entryCount,
      { seq.rowStore with
          file := some (content ++ entry), entryCount := seq.rowStore.entryCount + 1 }) := by
    unfold rowStore.Append
    rw [if_neg (by simp [hlen]), if_neg (by simp [hopen])]
    simp only [fileWrite, hopen, hmod1, hmod2]
  unfold Store.HasEntry at hnew
  simp only [Store.TryInsert, hnew, happ, indexStore.Put]

/-- The call `TryInsert(entry)` on a store whose index holds `entry` changes nothing. -/
theorem Store.TryInsert_present (seq : Store) (entry : List Nat)
    (hold : seq.HasEntry entry = .ok true) :
    seq.TryInsert entry = (.ok false, seq) := by
  unfold Store.HasEntry at hold
  simp only [Store.TryInsert, hold]

/-- The index lookup after two `TryInsert(entry)` calls on a store whose index does not
hold `entry`: it reads the encoding of the former count. -/
theorem Store.GetID_after_TryInsert_twice (seq : Store) (content entry : List Nat)
    (hopen : seq.rowStore.file = some content)
    (hlen : (entry.length : Int) = seq.rowStore.entryStride)
    (hnew : seq.HasEntry entry = .ok false)
    (hcount : seq.rowStore.entryCount + 1 < 2 ^ 64) :
    ((seq.TryInsert entry).2.TryInsert entry).2.GetID entry =
      indexStore.Retrieve { db := some [(entry, encodeEntryId seq.rowStore.entryCount)] }
        entry := by
  rw [Store.TryInsert_fresh seq content entry hopen hlen hnew hcount]
  rw [Store.TryInsert_present _ entry (by simp [Store.HasEntry, indexStore.Has, Bucket.get_put])]
  have hget : Bucket.get [(entry, encodeEntryId seq.rowStore.entryCount)] entry
      = some (encodeEntryId seq.rowStore.entryCount) := by
    simp [Bucket.get]
  simp only [Store.GetID, indexStore.Retrieve, Bucket.get_put, hget]

/-- C8 (counterexample): on a store of `2 ^ 61` one-byte records with an empty index, two
`TryInsert([7])` calls leave an index in which `GetID([7])` fails with the unknown-entry
error: the id `2 ^ 61` that the first call assigned has no encoding. On a store of
`2 ^ 53` records `GetID([7])` returns `0`, not the assigned id `2 ^ 53`. -/
theorem C8_getID_wrong_id :
    (Store.onZeroRows 1 (2 ^ 61)).Count = .ok (2 ^ 61) ∧
    (((Store.onZeroRows 1 (2 ^ 61)).TryInsert [7]).2.TryInsert [7]).2.GetID [7]
      = .error .errUnknownEntry ∧
    (Store.onZeroRows 1 (2 ^ 53)).Count = .ok (2 ^ 53) ∧
    (((Store.onZeroRows 1 (2 ^ 53)).TryInsert [7]).2.TryInsert [7]).2.GetID [7] = .ok 0 := by
  refine ⟨rfl, ?_, rfl, ?_⟩
  · rw [Store.GetID_after_TryInsert_twice (Store.onZeroRows 1 (2 ^ 61))
      (List.replicate (2 ^ 61 * 1) 0) [7] rfl rfl rfl (by decide)]
    decide
  · rw [Store.GetID_after_TryInsert_twice (Store.onZeroRows 1 (2 ^ 53))
      (List.replicate (2 ^ 53 * 1) 0) [7] rfl rfl rfl (by decide)]
    decide

/-- C8 (amended): for every open store and every entry `X` of length stride that the
index does not yet contain, calling `TryInsert(X)` twice in sequence returns `(true, nil)`
and then `(false, nil)` and `Count()` grows by exactly 1 over the two calls; and when the
pre-insert `Count()` is below `2 ^ 53`, `GetID(X)` afterwards returns the id assigned by
the first call, the pre-insert `Count()`. The count after the insert is a `uint64`. -/
theorem C8_dedup_insert (seq : Store) (content X : List Nat) (c : Nat)
    (hopen : seq.rowStore.file = some content)
    (hlen : (X.length : Int) = seq.rowStore.entryStride)
    (hnew : seq.HasEntry X = .ok false)
    (hc : seq.Count = .ok c)
    (hrange : c + 1 < 2 ^ 64) :
    (seq.TryInsert X).1 = .ok true ∧
    ((seq.TryInsert X).2.TryInsert X).1 = .ok false ∧
    ((seq.TryInsert X).2.TryInsert X).2.Count = .ok (c + 1) ∧
    (c < 2 ^ 53 → ((seq.TryInsert X).2.TryInsert X).2.GetID X = .ok c) := by
  have hce : seq.rowStore.entryCount = c := by
    simpa [Store.Count, rowStore.EntryCount] using hc
  have hlt : seq.rowStore.entryCount + 1 < 2 ^ 64 := by omega
  have hid := Store.GetID_after_TryInsert_twice seq content X hopen hlen hnew hlt
  have h1 := Store.TryInsert_fresh seq content X hopen hlen hnew hlt
  refine ⟨by rw [h1], ?_, ?_, ?_⟩
  · rw [h1, Store.TryInsert_present _ X
      (by simp [Store.HasEntry, indexStore.Has, Bucket.get_put])]
  · rw [h1, Store.TryInsert_present _ X
      (by simp [Store.HasEntry, indexStore.Has, Bucket.get_put])]
    simp [Store.Count, rowStore.EntryCount, hce]
  · intro hcount
    rw [hid, hce]
    have hne := encodeEntryId_ne_nil c (by omega)
    have hrt := decode_encode_append c [] hcount
    simp only [List.append_nil] at hrt
    simp [indexStore.Retrieve, Bucket.get, hrt, hne]

/-- Witness of C8: the empty store of stride 2 and the entry `[1, 2]`. -/
theorem C8_dedup_insert_witness :
    ((Store.empty 2).TryInsert [1, 2]).1 = .ok true ∧
    (((Store.empty 2).TryInsert [1, 2]).2.TryInsert [1, 2]).1 = .ok false ∧
    (((Store.empty 2).TryInsert [1, 2]).2.TryInsert [1, 2]).2.Count = .ok (0 + 1) ∧
    (((Store.empty 2).TryInsert [1, 2]).2.TryInsert [1, 2]).2.GetID [1, 2] = .ok 0 :=
  have h := C8_dedup_insert (Store.empty 2) [] [1, 2] 0 rfl (by decide) (by decide) rfl
    (by decide)
  ⟨h.1, h.2.1, h.2.2.1, h.2.2.2 (by decide)⟩

/-! ## Claims on the example scenario, on errors and on the closed store -/

/-- C11: with stride 4 and an empty open store, `Insert([1,2,3,4])` succeeds with id 0,
`Insert([5,6,7,8])` succeeds with id 1, `Insert([1,2,3,4])` again fails with the
duplicate-entry error and `Count()` stays 2; then `Truncate(1)` succeeds and afterwards
`HasID(1)` is false, `HasEntry([5,6,7,8])` is false and `GetEntry(0)` returns `[1,2,3,4]`. -/
theorem C11_example_scenario :
    ((Store.empty 4).Insert [1, 2, 3, 4]).1 = .ok () ∧
    ((Store.empty 4).Insert [1, 2, 3, 4]).2.GetID [1, 2, 3, 4] = .ok 0 ∧
    (((Store.empty 4).Insert [1, 2, 3, 4]).2.Insert [5, 6, 7, 8]).1 = .ok () ∧
    (((Store.empty 4).Insert [1, 2, 3, 4]).2.Insert [5, 6, 7, 8]).2.GetID [5, 6, 7, 8]
      = .ok 1 ∧
    (((Store.empty 4).insertAll [[1, 2, 3, 4], [5, 6, 7, 8]]).Insert [1, 2, 3, 4]).1
      = .error .errDuplicate ∧
    (((Store.empty 4).insertAll [[1, 2, 3, 4], [5, 6, 7, 8]]).Insert [1, 2, 3, 4]).2.Count
      = .ok 2 ∧
    (((Store.empty 4).insertAll [[1, 2, 3, 4], [5, 6, 7, 8], [1, 2, 3, 4]]).Truncate 1).1
      = .ok () ∧
    (((Store.empty 4).insertAll [[1, 2, 3, 4], [5, 6, 7, 8], [1, 2, 3, 4]]).Truncate 1).2.HasID 1
      = false ∧
    (((Store.empty 4).insertAll [[1, 2, 3, 4], [5, 6, 7, 8], [1, 2, 3, 4]]).Truncate
        1).2.HasEntry [5, 6, 7, 8] = .ok false ∧
    (((Store.empty 4).insertAll [[1, 2, 3, 4], [5, 6, 7, 8], [1, 2, 3, 4]]).Truncate
        1).2.GetEntry 0 = .ok [1, 2, 3, 4] := by
  decide

/-- C13: for every row store state and every blob with `len(blob) != stride`,
`Append(blob)` fails with the size-mismatch error and leaves the file contents and the
entry count unchanged. -/
theorem C13_size_mismatch_atomic (t : rowStore) (blob : List Nat)
    (hlen : (blob.length : Int) ≠ t.entryStride) :
    (t.Append blob).1 = .error (.errSizeMismatch t.entryStride blob.length) ∧
    (t.Append blob).2 = t := by
  unfold rowStore.Append
  rw [if_pos hlen]
  exact ⟨rfl, rfl⟩

/-- Witness of C13: a blob of three bytes on a store of stride 2. -/
theorem C13_size_mismatch_atomic_witness :
    (rowStore.Append ⟨2, some [1, 2], 1⟩ [7, 8, 9]).1 = .error (.errSizeMismatch 2 3) ∧
    (rowStore.Append ⟨2, some [1, 2], 1⟩ [7, 8, 9]).2 = ⟨2, some [1, 2], 1⟩ :=
  C13_size_mismatch_atomic ⟨2, some [1, 2], 1⟩ [7, 8, 9] (by decide)

/-- C19: for every id below `2 ^ 53` and every byte string `s`,
`decodeEntryId(encodeEntryId(id) ++ s) = (id, s)`; so `encodeEntryId` is injective on ids
below `2 ^ 53`, and no encoding of such an id is a proper prefix of the encoding of
another. -/
theorem C19_self_terminating (id a b : Nat) (s u : List Nat)
    (hid : id < 2 ^ 53) (ha : a < 2 ^ 53) (hb : b < 2 ^ 53) :
    decodeEntryId (encodeEntryId id ++ s) = some (id, s) ∧
    (encodeEntryId a = encodeEntryId b → a = b) ∧
    (encodeEntryId a ++ u = encodeEntryId b → a = b ∧ u = []) := by
  have key : ∀ v : List Nat, encodeEntryId a ++ v = encodeEntryId b → a = b ∧ v = [] := by
    intro v h
    have h1 := decode_encode_append a v ha
    have h2 := decode_encode_append b [] hb
    rw [List.append_nil, ← h, h1] at h2
    simpa using h2
  refine ⟨decode_encode_append id s hid, ?_, key u⟩
  intro h
  exact (key [] (by rw [List.append_nil]; exact h)).1

/-- Witness of C19: the ids 300, 300 and 5 and the suffixes `[9, 9]` and `[1]`. -/
theorem C19_self_terminating_witness :
    decodeEntryId (encodeEntryId 300 ++ [9, 9]) = some (300, [9, 9]) ∧
    (encodeEntryId 300 = encodeEntryId 5 → 300 = 5) ∧
    (encodeEntryId 300 ++ [1] = encodeEntryId 5 → 300 = 5 ∧ [1] = ([] : List Nat)) :=
  C19_self_terminating 300 300 5 [9, 9] [1] (by norm_num) (by norm_num) (by norm_num)

/-- After `Close` the file handle is nil and the rest of the store is as before. -/
theorem rowStore.Close_ok (t : rowStore) (h : (t.Close).1 = .ok ()) :
    (t.Close).2 = { t with file := none } := by
  unfold rowStore.Close at h ⊢
  cases hf : t.file with
  | none => simp [hf] at h
  | some c => simp

/-- On a store whose file handle is nil, `Retrieve` fails with the closed-store error. -/
theorem rowStore.Retrieve_closed (t : rowStore) (entryId : Nat) (h : t.file = none) :
    t.Retrieve entryId = .error .errClosed := by
  simp [rowStore.Retrieve, h]

/-- On a store whose file handle is nil, `Append` of a blob of `stride` bytes fails with
the closed-store error and changes nothing. -/
theorem rowStore.Append_closed (t : rowStore) (blob : List Nat) (h : t.file = none)
    (hlen : (blob.length : Int) = t.entryStride) :
    t.Append blob = (.error .errClosed, t) := by
  simp [rowStore.Append, h, hlen]

/-- C15 (the code at the failing input): after `Close()` succeeds on a store of two
records, `Sync()`, `Size()` and `truncate(0)` fail with `os.ErrInvalid`, the error of a
method of a nil file, and not with the closed-store error, and `truncate(2)` returns no
error at all. -/
theorem C15_closed_store_other_errors :
    (rowStore.Close ⟨2, some [1, 2, 3, 4], 2⟩).1 = .ok () ∧
    (rowStore.Close ⟨2, some [1, 2, 3, 4], 2⟩).2.Sync = .error .errInvalid ∧
    (rowStore.Close ⟨2, some [1, 2, 3, 4], 2⟩).2.Size = .error .errInvalid ∧
    ((rowStore.Close ⟨2, some [1, 2, 3, 4], 2⟩).2.truncate 0).1 = .error .errInvalid ∧
    ((rowStore.Close ⟨2, some [1, 2, 3, 4], 2⟩).2.truncate 2).1 = .ok [] := by
  decide

/-- C18 (the code at the failing input): on a file of five bytes with stride 2, when the
`Truncate` call of `repair` fails and the other calls go through, `repair` returns no
error and `newRowStore` returns an open store of two entries whose file still holds the
five bytes. -/
theorem C18_truncate_failure_dropped :
    (rowStore.repairWith ⟨none, none, some .errInputOutput, none, none⟩
        ⟨2, some [1, 2, 3, 4, 5], 0⟩).1 = .ok () ∧
    newRowStoreWith ⟨none, none, some .errInputOutput, none, none⟩ [1, 2, 3, 4, 5] 2
      = .ok ⟨2, some [1, 2, 3, 4, 5], 2⟩ := by
  decide

/-! ## Claims on reads, repair and the file size -/

/-- On an open store whose file holds `entryCount` records, a positive entry count makes
the stride non-negative. -/
theorem stride_nonneg_of_count_pos (t : rowStore) (content : List Nat)
    (hsize : (content.length : Int) = (t.entryCount : Int) * t.entryStride)
    (hcount : 0 < t.entryCount) : 0 ≤ t.entryStride := by
  by_contra hneg
  have h1 : (t.entryCount : Int) * t.entryStride < 0 :=
    Int.mul_neg_of_pos_of_neg (by omega) (by omega)
  omega

/-- The read of `Retrieve` on an open store whose file holds `entryCount` records of
`stride` bytes, for an id below the entry count. -/
theorem rowStore.Retrieve_of_lt (t : rowStore) (content : List Nat) (stride entryId : Nat)
    (hopen : t.file = some content)
    (hstride : t.entryStride = stride)
    (hsize : content.length = t.entryCount * stride)
    (hfit : content.length < 2 ^ 63)
    (hid : entryId < t.entryCount) :
    t.Retrieve entryId = .ok ((content.drop (entryId * stride)).take stride) ∧
    ((content.drop (entryId * stride)).take stride).length = stride := by
  have hle : (entryId + 1) * stride ≤ t.entryCount * stride :=
    Nat.mul_le_mul_right stride (by omega)
  have hle2 : entryId * stride + stride ≤ content.length := by
    rw [hsize]; calc entryId * stride + stride = (entryId + 1) * stride := by ring
      _ ≤ _ := hle
  have hn1 : ¬ t.entryCount ≤ entryId := by omega
  have hn2 : ¬ t.entryStride < 0 := by omega
  have hlenr : ((content.drop (entryId * stride)).take stride).length = stride := by
    simp; omega
  refine ⟨?_, hlenr⟩
  have hz : toInt64 0 = 0 := by decide
  have hoff : toInt64 (toInt64 (entryId : Int) * (stride : Int))
      = ((entryId * stride : Nat) : Int) := by
    rcases Nat.eq_zero_or_pos stride with h0 | hpos
    · subst h0; simp [hz]
    · have hid1 : entryId ≤ entryId * stride := Nat.le_mul_of_pos_right _ hpos
      rw [toInt64_eq_self _ (Int.ofNat_nonneg _) (by omega), ← Int.ofNat_mul]
      exact toInt64_eq_self _ (Int.ofNat_nonneg _) (by omega)
  have hnn : ¬ ((entryId * stride : Nat) : Int) < 0 := Int.not_lt.mpr (Int.ofNat_nonneg _)
  have hn3 : ¬ ((stride : Nat) : Int) < 0 := Int.not_lt.mpr (Int.ofNat_nonneg _)
  simp only [rowStore.Retrieve, hopen, hn1, hstride, fileReadAt, hoff, if_neg hnn,
    if_neg hn3, Int.toNat_ofNat, if_pos hle2]
  by_cases h0 : stride = 0
  · subst h0; simp
  · simp [h0]

/-- C12: for every open row store with file size = `entryCount*stride` and every id,
`Retrieve(id)` fails with the out-of-bounds error if and only if `id >= entryCount`;
otherwise it returns exactly the `stride` bytes stored at the file offset `id*stride`.
The file size is in the `int64` range. -/
theorem C12_retrieve_bounds (t : rowStore) (content : List Nat) (entryId : Nat)
    (hopen : t.file = some content)
    (hsize : (content.length : Int) = (t.entryCount : Int) * t.entryStride)
    (hfit : content.length < 2 ^ 63) :
    (t.Retrieve entryId = .error .errOutOfBounds ↔ t.entryCount ≤ entryId) ∧
    (entryId < t.entryCount →
      t.Retrieve entryId
        = .ok ((content.drop (entryId * t.entryStride.toNat)).take t.entryStride.toNat) ∧
      (((content.drop (entryId * t.entryStride.toNat)).take t.entryStride.toNat).length : Int)
        = t.entryStride) := by
  by_cases h : t.entryCount ≤ entryId
  · refine ⟨⟨fun _ => h, fun _ => ?_⟩, fun hlt => absurd h (by omega)⟩
    simp [rowStore.Retrieve, hopen, h]
  · have hlt : entryId < t.entryCount := by omega
    have hnn := stride_nonneg_of_count_pos t content hsize (by omega)
    obtain ⟨stride, hs⟩ := Int.eq_ofNat_of_zero_le hnn
    have hsize1 : content.length = t.entryCount * stride := by
      rw [hs] at hsize
      exact_mod_cast hsize
    have hr := rowStore.Retrieve_of_lt t content stride entryId hopen hs hsize1 hfit hlt
    have htn : t.entryStride.toNat = stride := by rw [hs]; exact Int.toNat_ofNat stride
    rw [htn, hs]
    refine ⟨⟨fun he => ?_, fun hc => absurd hc h⟩, fun _ => ⟨hr.1, by rw [hr.2]⟩⟩
    rw [hr.1] at he
    cases he

/-- Witness of C12: a store of two records of two bytes, read at id 1. -/
theorem C12_retrieve_bounds_witness :
    (rowStore.Retrieve ⟨2, some [1, 2, 3, 4], 2⟩ 1 = .error .errOutOfBounds ↔ 2 ≤ 1) ∧
    (1 < 2 →
      rowStore.Retrieve ⟨2, some [1, 2, 3, 4], 2⟩ 1
        = .ok (([1, 2, 3, 4].drop (1 * (2 : Int).toNat)).take (2 : Int).toNat) ∧
      ((([1, 2, 3, 4].drop (1 * (2 : Int).toNat)).take (2 : Int).toNat).length : Int)
        = 2) :=
  C12_retrieve_bounds ⟨2, some [1, 2, 3, 4], 2⟩ [1, 2, 3, 4] 1 rfl (by decide) (by decide)

/-- The call `repair` on a file that holds whole records only: the file stays as it is
and the entry count is the number of records. -/
theorem rowStore.repair_of_aligned (t : rowStore) (content : List Nat) (stride c : Nat)
    (hopen : t.file = some content)
    (hstride : t.entryStride = stride) (hpos : 0 < stride)
    (hlen : content.length = c * stride)
    (hfit : content.length < 2 ^ 63) :
    t.repair = (.ok (), { t with entryCount := c }) := by
  have hc : c ≤ c * stride := Nat.le_mul_of_pos_right _ hpos
  have hmod : ((content.length : Nat) : Int).tmod (stride : Int) = 0 := by
    rw [← Int.ofNat_tmod, hlen, Nat.mul_mod_left]; rfl
  have hdiv : ((content.length : Nat) : Int).tdiv (stride : Int) = (c : Int) := by
    rw [← Int.ofNat_tdiv, hlen, Nat.mul_div_cancel _ hpos]
  have hcn : ((c : Int) % 2 ^ 64).toNat = c := by omega
  have hs0 : ¬ ((stride : Nat) : Int) = 0 := by omega
  simp only [rowStore.repair, rowStore.repairWith, noFaults, faulty, fileSize, hopen, hstride,
    if_neg hs0, hmod, hdiv, hcn, ne_eq, not_true_eq_false, if_false]

/-- The call `repair` on a file that ends in a partial record: the partial record is cut
off, the whole records stay, and the entry count is their number. -/
theorem rowStore.repair_of_partial (t : rowStore) (content : List Nat) (stride c r : Nat)
    (hopen : t.file = some content)
    (hstride : t.entryStride = stride)
    (hr0 : 0 < r) (hr : r < stride)
    (hlen : content.length = c * stride + r)
    (hfit : content.length < 2 ^ 63) :
    t.repair = (.ok (), { t with file := some (content.take (c * stride)), entryCount := c }) := by
  have hpos : 0 < stride := by omega
  have hc : c ≤ c * stride := Nat.le_mul_of_pos_right _ hpos
  have hmodn : (c * stride + r) % stride = r := by
    rw [Nat.add_comm, Nat.add_mul_mod_self_right, Nat.mod_eq_of_lt hr]
  have hmod : ((content.length : Nat) : Int).tmod (stride : Int) = (r : Int) := by
    rw [← Int.ofNat_tmod, hlen, hmodn]
  have hsub : ((content.length : Nat) : Int) - (r : Int) = ((c * stride : Nat) : Int) := by
    rw [hlen]; push_cast; ring
  have hcut : toInt64 ((c * stride : Nat) : Int) = ((c * stride : Nat) : Int) :=
    toInt64_eq_self _ (Int.ofNat_nonneg _) (by omega)
  have hlen1 : (content.take (c * stride)).length = c * stride := by
    rw [List.length_take]; omega
  have hdiv : (((content.take (c * stride)).length : Nat) : Int).tdiv (stride : Int)
      = (c : Int) := by
    rw [← Int.ofNat_tdiv, hlen1, Nat.mul_div_cancel _ hpos]
  have hcn : ((c : Int) % 2 ^ 64).toNat = c := by omega
  have hs0 : ¬ ((stride : Nat) : Int) = 0 := by omega
  have hr1 : ¬ ((r : Nat) : Int) = 0 := by omega
  have hnn : ¬ ((c * stride : Nat) : Int) < 0 := Int.not_lt.mpr (Int.ofNat_nonneg _)
  have hpad : c * stride - content.length = 0 := by omega
  simp only [rowStore.repair, rowStore.repairWith, rowStore.repairCut, noFaults, faulty,
    fileSize, fileTruncate, rowStore.Sync, hopen, hstride, if_neg hs0, hmod, hsub, hcut,
    if_neg hnn, Int.toNat_ofNat, hpad, List.replicate_zero, List.append_nil, hdiv, hcn,
    ne_eq, hr1, not_false_eq_true, if_true]

/-- C14: for every stride > 0, count `c` and remainder `0 < r < stride`, running `repair`
on a file of size `c*stride + r` yields `entryCount = c` and a file of exactly `c*stride`
bytes, the first `c*stride` bytes of the file before; running `repair` again changes
nothing. So does opening the file with `newRowStore`. No call on the file fails, and the
file size is in the `int64` range. -/
theorem C14_repair_partial_record (t : rowStore) (content : List Nat) (stride c r : Nat)
    (hopen : t.file = some content)
    (hstride : t.entryStride = stride)
    (hpos : 0 < stride) (hr0 : 0 < r) (hr : r < stride)
    (hlen : content.length = c * stride + r)
    (hfit : content.length < 2 ^ 63) :
    (t.repair).1 = .ok () ∧
    (t.repair).2.entryCount = c ∧
    (t.repair).2.file = some (content.take (c * stride)) ∧
    (content.take (c * stride)).length = c * stride ∧
    (t.repair).2.repair = (.ok (), (t.repair).2) ∧
    newRowStore content stride = .ok ⟨stride, some (content.take (c * stride)), c⟩ := by
  have hlen1 : (content.take (c * stride)).length = c * stride := by
    rw [List.length_take]; omega
  have h1 := rowStore.repair_of_partial t content stride c r hopen hstride hr0 hr hlen hfit
  have h2 := rowStore.repair_of_aligned
    { t with file := some (content.take (c * stride)), entryCount := c }
    (content.take (c * stride)) stride c rfl hstride hpos hlen1 (by omega)
  have h3 := rowStore.repair_of_partial ⟨stride, some content, 0⟩ content stride c r rfl rfl
    hr0 hr hlen hfit
  rw [h1]
  refine ⟨rfl, rfl, rfl, hlen1, h2, ?_⟩
  simp only [rowStore.repair, noFaults] at h3
  simp only [newRowStore, newRowStoreWith, noFaults, h3]

/-- Witness of C14: a file of five bytes with stride 2. -/
theorem C14_repair_partial_record_witness :
    (rowStore.repair ⟨2, some [1, 2, 3, 4, 5], 0⟩).1 = .ok () ∧
    (rowStore.repair ⟨2, some [1, 2, 3, 4, 5], 0⟩).2.entryCount = 2 ∧
    (rowStore.repair ⟨2, some [1, 2, 3, 4, 5], 0⟩).2.file
      = some ([1, 2, 3, 4, 5].take (2 * 2)) ∧
    ([1, 2, 3, 4, 5].take (2 * 2)).length = 2 * 2 ∧
    (rowStore.repair ⟨2, some [1, 2, 3, 4, 5], 0⟩).2.repair
      = (.ok (), (rowStore.repair ⟨2, some [1, 2, 3, 4, 5], 0⟩).2) ∧
    newRowStore [1, 2, 3, 4, 5] ((2 : Nat) : Int)
      = .ok ⟨((2 : Nat) : Int), some ([1, 2, 3, 4, 5].take (2 * 2)), 2⟩ :=
  C14_repair_partial_record ⟨2, some [1, 2, 3, 4, 5], 0⟩ [1, 2, 3, 4, 5] 2 2 1 rfl rfl
    (by decide) (by decide) (by decide) (by decide) (by decide)

/-- Reading a record of a file and reading it after the file was cut behind it give the
same bytes. -/
theorem take_drop_take (content : List Nat) (stride entryId newEntryCount : Nat)
    (hid : entryId < newEntryCount) :
    ((content.take (newEntryCount * stride)).drop (entryId * stride)).take stride
      = (content.drop (entryId * stride)).take stride := by
  have hle : (entryId + 1) * stride ≤ newEntryCount * stride :=
    Nat.mul_le_mul_right stride (by omega)
  have hle1 : stride ≤ newEntryCount * stride - entryId * stride := by
    have : (entryId + 1) * stride = entryId * stride + stride := by ring
    omega
  rw [List.drop_take, List.take_take, Nat.min_eq_left hle1]

/-- C17: for every open row store, every `newCount` and every id below
`min(newCount, entryCount)`, `Retrieve(id)` returns the same bytes before and after
`truncate(newCount)`; and when `newCount >= entryCount`, `truncate` returns no removed
records and no error and leaves the file contents and the entry count unchanged. The
file holds `entryCount` records, its size is in the `int64` range, and the stride is not
zero (`newRowStore` divides by it). -/
theorem C17_truncate_frame (t : rowStore) (content : List Nat) (newEntryCount entryId : Nat)
    (hopen : t.file = some content)
    (hsize : (content.length : Int) = (t.entryCount : Int) * t.entryStride)
    (hstride : t.entryStride ≠ 0)
    (hfit : content.length < 2 ^ 63) :
    (entryId < min newEntryCount t.entryCount →
      (t.truncate newEntryCount).2.Retrieve entryId = t.Retrieve entryId) ∧
    (t.entryCount ≤ newEntryCount → t.truncate newEntryCount = (.ok [], t)) := by
  have hnoop : t.entryCount ≤ newEntryCount → t.truncate newEntryCount = (.ok [], t) := by
    intro h
    simp [rowStore.truncate, h]
  refine ⟨fun hid => ?_, hnoop⟩
  by_cases h : t.entryCount ≤ newEntryCount
  · rw [hnoop h]
  · have hnn := stride_nonneg_of_count_pos t content hsize (by omega)
    obtain ⟨stride, hs⟩ := Int.eq_ofNat_of_zero_le hnn
    have hpos : 0 < stride := by omega
    have hsize1 : content.length = t.entryCount * stride := by
      rw [hs] at hsize
      exact_mod_cast hsize
    have hlt : newEntryCount * stride < t.entryCount * stride :=
      Nat.mul_lt_mul_of_pos_right (by omega) hpos
    have hlen1 : (content.take (newEntryCount * stride)).length = newEntryCount * stride := by
      rw [List.length_take]; omega
    have htr := rowStore.truncate_of_two_records t content stride newEntryCount hopen hs hpos
      hsize1 hfit (by omega) (by omega)
    have hbefore := rowStore.Retrieve_of_lt t content stride entryId hopen hs hsize1 hfit
      (by omega)
    have hafter := rowStore.Retrieve_of_lt
      { t with file := some (content.take (newEntryCount * stride)),
               entryCount := newEntryCount }
      (content.take (newEntryCount * stride)) stride entryId rfl hs hlen1 (by omega)
      (by show entryId < newEntryCount; omega)
    rw [htr, hbefore.1]
    show rowStore.Retrieve _ entryId = _
    rw [hafter.1, take_drop_take content stride entryId newEntryCount (by omega)]

/-- Witness of C17: a store of three records of two bytes, cut to two records, read at
id 1. -/
theorem C17_truncate_frame_witness :
    (1 < min 2 3 →
      (rowStore.truncate ⟨2, some [1, 2, 3, 4, 5, 6], 3⟩ 2).2.Retrieve 1
        = rowStore.Retrieve ⟨2, some [1, 2, 3, 4, 5, 6], 3⟩ 1) ∧
    (3 ≤ 2 → rowStore.truncate ⟨2, some [1, 2, 3, 4, 5, 6], 3⟩ 2
        = (.ok [], ⟨2, some [1, 2, 3, 4, 5, 6], 3⟩)) :=
  C17_truncate_frame ⟨2, some [1, 2, 3, 4, 5, 6], 3⟩ [1, 2, 3, 4, 5, 6] 2 1 rfl (by decide)
    (by decide) (by decide)

/-- The file-size invariant is kept by every call, as long as the file stays in the
`int64` range. -/
theorem rowStore.step_sized (t : rowStore) (stride bound : Nat) (op : rowOp)
    (hpos : 0 < stride) (hb : bound + stride < 2 ^ 63) (h : t.sized stride bound) :
    (t.step op).sized stride (bound + stride) := by
  obtain ⟨content, hopen, hs, hsize, hle⟩ := h
  have hkeep : t.sized stride (bound + stride) := ⟨content, hopen, hs, hsize, by omega⟩
  have hc : t.entryCount ≤ t.entryCount * stride := Nat.le_mul_of_pos_right _ hpos
  cases op with
  | Append blob =>
    by_cases hlen : (blob.length : Int) = t.entryStride
    · have hmod1 : (t.entryCount + 1) % 2 ^ 64 = t.entryCount + 1 :=
        Nat.mod_eq_of_lt (by omega)
      have hmod2 : (t.entryCount + 1 + 2 ^ 64 - 1) % 2 ^ 64 = t.entryCount := by omega
      have hbl : blob.length = stride := by rw [hs] at hlen; exact_mod_cast hlen
      have happ : t.Append blob = (.ok t.entryCount,
          { t with file := some (content ++ blob), entryCount := t.entryCount + 1 }) := by
        unfold rowStore.Append
        rw [if_neg (by simp [hlen]), if_neg (by simp [hopen])]
        simp only [fileWrite, hopen, hmod1, hmod2]
      refine ⟨content ++ blob, by simp [rowStore.step, happ], by simp [rowStore.step, happ, hs],
        ?_, ?_⟩
      · simp only [rowStore.step, happ, List.length_append, hbl, hsize]; ring
      · simp only [List.length_append, hbl]; omega
    · have happ : (t.Append blob).2 = t := by
        unfold rowStore.Append
        rw [if_pos hlen]
      simpa [rowStore.step, happ] using hkeep
  | truncate newEntryCount =>
    by_cases hn : t.entryCount ≤ newEntryCount
    · have htr : t.truncate newEntryCount = (.ok [], t) := by simp [rowStore.truncate, hn]
      simpa [rowStore.step, htr] using hkeep
    · by_cases hone : t.entryCount = 1
      · have hz : newEntryCount = 0 := by omega
        subst hz
        have htr := rowStore.truncate_of_one_record t content stride hopen hs hpos
          (by rw [hsize, hone]; ring) hone
        simpa [rowStore.step, htr] using hkeep
      · have hlt : newEntryCount * stride < t.entryCount * stride :=
          Nat.mul_lt_mul_of_pos_right (by omega) hpos
        have htr := rowStore.truncate_of_two_records t content stride newEntryCount hopen hs
          hpos hsize (by omega) (by omega) (by omega)
        refine ⟨content.take (newEntryCount * stride), by simp [rowStore.step, htr],
          by simp [rowStore.step, htr, hs], ?_, ?_⟩
        · simp only [rowStore.step, htr, List.length_take]; omega
        · simp only [List.length_take]; omega
  | Retrieve entryId => simpa [rowStore.step] using hkeep
  | Has entryId => simpa [rowStore.step] using hkeep

/-- The file-size invariant is kept by every sequence of calls, as long as the file
stays in the `int64` range. -/
theorem rowStore.run_sized (stride : Nat) (hpos : 0 < stride) :
    ∀ (ops : List rowOp) (t : rowStore) (bound : Nat),
      bound + ops.length * stride < 2 ^ 63 → t.sized stride bound →
      (t.run ops).sized stride (bound + ops.length * stride) := by
  intro ops
  induction ops with
  | nil => intro t bound _ h; simpa [rowStore.run] using h
  | cons op ops ih =>
    intro t bound hb h
    have hl : bound + (op :: ops).length * stride = bound + stride + ops.length * stride := by
      simp only [List.length_cons]; ring
    rw [hl] at hb ⊢
    have hle : ops.length * stride ≥ 0 := Nat.zero_le _
    exact ih (t.step op) (bound + stride) hb
      (rowStore.step_sized t stride bound op hpos (by omega) h)

/-- The store that `newRowStore` returns on any file, for a positive stride, satisfies the
file-size invariant. -/
theorem newRowStore_sized (content : List Nat) (stride : Nat) (hpos : 0 < stride)
    (hfit : content.length < 2 ^ 63) :
    ∃ t, newRowStore content stride = .ok t ∧ t.sized stride content.length := by
  have hdm : content.length = content.length / stride * stride + content.length % stride :=
    (Nat.div_add_mod' content.length stride).symm
  have hle : content.length / stride * stride ≤ content.length := Nat.div_mul_le_self _ _
  by_cases hr : content.length % stride = 0
  · have h := rowStore.repair_of_aligned ⟨stride, some content, 0⟩ content stride
      (content.length / stride) rfl rfl hpos (by omega) hfit
    simp only [rowStore.repair, noFaults] at h
    refine ⟨⟨stride, some content, content.length / stride⟩, ?_, content, rfl, rfl, ?_,
      le_refl _⟩
    · simp only [newRowStore, newRowStoreWith, noFaults, h]
    · show content.length = content.length / stride * stride
      omega
  · have h := rowStore.repair_of_partial ⟨stride, some content, 0⟩ content stride
      (content.length / stride) (content.length % stride) rfl rfl (by omega)
      (Nat.mod_lt _ hpos) hdm hfit
    simp only [rowStore.repair, noFaults] at h
    refine ⟨⟨stride, some (content.take (content.length / stride * stride)),
      content.length / stride⟩, ?_, content.take (content.length / stride * stride), rfl, rfl,
      ?_, ?_⟩
    · simp only [newRowStore, newRowStoreWith, noFaults, h]
    · show (content.take _).length = content.length / stride * stride
      rw [List.length_take]; omega
    · rw [List.length_take]; omega

/-- C20: in the sequential model without failures of the file system, starting from a row
store just opened by `newRowStore` (after `repair`) with a stride > 0, every sequence of
`Append`, `truncate`, `Retrieve` and `Has` calls, whether each call succeeds or fails,
leaves the file size equal to `entryCount * stride`. The file opened, and the file with
as many records more as there are calls, are in the `int64` range of file sizes. -/
theorem C20_file_size_invariant (content : List Nat) (stride : Nat) (ops : List rowOp)
    (hpos : 0 < stride)
    (hfit : content.length + ops.length * stride < 2 ^ 63) :
    ∃ t, newRowStore content stride = .ok t ∧
      ∃ final, (t.run ops).file = some final ∧
        final.length = (t.run ops).entryCount * stride := by
  have hle : ops.length * stride ≥ 0 := Nat.zero_le _
  obtain ⟨t, hnew, hsized⟩ := newRowStore_sized content stride hpos (by omega)
  obtain ⟨final, hfile, _, hsize, _⟩ :=
    rowStore.run_sized stride hpos ops t content.length hfit hsized
  exact ⟨t, hnew, final, hfile, hsize⟩

/-- Witness of C20: a file of five bytes with stride 2, then an append of a record, a
cut to no record, an append of a blob of another size, a read and a probe. -/
theorem C20_file_size_invariant_witness :
    ∃ t, newRowStore [1, 2, 3, 4, 5] ((2 : Nat) : Int) = .ok t ∧
      ∃ final,
        (t.run [.Append [6, 7], .truncate 0, .Append [8], .Retrieve 0, .Has 0]).file
          = some final ∧
        final.length
          = (t.run [.Append [6, 7], .truncate 0, .Append [8], .Retrieve 0, .Has 0]).entryCount
            * 2 :=
  C20_file_size_invariant [1, 2, 3, 4, 5] 2
    [.Append [6, 7], .truncate 0, .Append [8], .Retrieve 0, .Has 0] (by decide) (by decide)

/-! ## Claim on two concurrent `Append` calls -/

/-- The method `Append` is its write followed by its counter increment. -/
theorem rowStore.Append_eq_write_count (t : rowStore) (blob : List Nat) :
    t.Append blob =
      match t.appendWrite blob with
      | (.error e, t1) => (.error e, t1)
      | (.ok _, t1) => (.ok t1.appendCount.1, t1.appendCount.2) := by
  unfold rowStore.Append rowStore.appendWrite rowStore.appendCount
  by_cases hlen : (blob.length : Int) ≠ t.entryStride
  · simp only [if_pos hlen]
  · simp only [if_neg hlen]
    cases hf : t.file with
    | none => simp only [if_true]
    | some content =>
      have hne : ¬ (some content = (none : Option (List Nat))) := by intro h; cases h
      simp only [if_neg hne, fileWrite]

/-- One caller after the other: the ids follow the offsets. -/
theorem appenders.run_sequential :
    (appenders.run [1, 2] [3, 4] (appenders.start (rowStore.empty 2))
      [.writeA, .countA, .writeB, .countB])
      = ⟨⟨2, some [1, 2, 3, 4], 2⟩, some 0, some 0, some 2, some 1⟩ := by
  decide

/-- C16 (the code at the failing schedule): two callers A and B append `[1, 2]` and
`[3, 4]` to an empty store of stride 2. In the schedule write of A, write of B, counter
increment of B, counter increment of A, the blob of A lands at offset 0 and the blob of
B at offset 2, and A is returned the id 1 and B the id 0; afterwards `Retrieve(1)` gives
the blob of B and `Retrieve(0)` the blob of A. -/
theorem C16_append_ids_against_offsets :
    (appenders.run [1, 2] [3, 4] (appenders.start (rowStore.empty 2))
      [.writeA, .writeB, .countB, .countA])
      = ⟨⟨2, some [1, 2, 3, 4], 2⟩, some 0, some 1, some 2, some 0⟩ ∧
    (appenders.run [1, 2] [3, 4] (appenders.start (rowStore.empty 2))
      [.writeA, .writeB, .countB, .countA]).store.Retrieve 1 = .ok [3, 4] ∧
    (appenders.run [1, 2] [3, 4] (appenders.start (rowStore.empty 2))
      [.writeA, .writeB, .countB, .countA]).store.Retrieve 0 = .ok [1, 2] := by
  decide

end Marcidus
